import Mathlib

/-!
Verification of the binary-encoding and address-derivation core of the
sigma-rust repository: byte-level serialization of digests and box
identifiers, the checksummed base-58 address codec, and the address/script
conversions, embedded shallowly as executable Lean definitions.
-/

namespace ErgoCore

/-- A byte: an unsigned 8-bit value. -/
abbrev Byte := Fin 256

/-- Big-endian value of a byte string. -/
def bytesToNat (bs : List Byte) : Nat :=
  bs.foldl (fun a b => a * 256 + b.val) 0

/-- Minimal big-endian base-256 digits of a natural number (`[]` for 0). -/
def natToBytes (n : Nat) : List Byte :=
  if h : n = 0 then []
  else natToBytes (n / 256) ++ [⟨n % 256, Nat.mod_lt _ (by decide)⟩]
termination_by n
decreasing_by exact Nat.div_lt_self (Nat.pos_of_ne_zero h) (by decide)

/-- Value of a big-endian list of base-58 digits. -/
def digitsToNat (ds : List (Fin 58)) : Nat :=
  ds.foldl (fun a d => a * 58 + d.val) 0

/-- Minimal big-endian base-58 digits of a natural number (`[]` for 0). -/
def natToB58 (n : Nat) : List (Fin 58) :=
  if h : n = 0 then []
  else natToB58 (n / 58) ++ [⟨n % 58, Nat.mod_lt _ (by decide)⟩]
termination_by n
decreasing_by exact Nat.div_lt_self (Nat.pos_of_ne_zero h) (by decide)

/-- The base-58 alphabet used for address strings: visually unambiguous characters,
no padding. -/
def b58Alphabet : List Char :=
  "123456789ABCDEFGHJKLMNPQRSTUVWXYZabcdefghijkmnopqrstuvwxyz".toList

/-- Character of a base-58 digit. -/
def digitChar (d : Fin 58) : Char := b58Alphabet.getD d.val '1'

/-- Digit of a base-58 character, `none` for a character outside the alphabet. -/
def charToDigit (c : Char) : Option (Fin 58) :=
  if h : b58Alphabet.findIdx (· == c) < 58 then some ⟨b58Alphabet.findIdx (· == c), h⟩
  else none

/-- Does a byte equal zero? Used for the leading-zero convention of base-58. -/
def isZeroByte (b : Byte) : Bool := b == 0

/-- Is a character the alphabet's zero digit `1`? -/
def isOneChar (c : Char) : Bool := c == '1'

/-- Distinct, inspectable decoding failures of the address codec: malformed
base-58 alphabet, checksum mismatch, unrecognized address-type header,
network mismatch, truncated input, malformed payload. -/
inductive DecodeError where
  | invalidChar
  | checksumMismatch
  | unknownTypeHeader
  | networkMismatch
  | truncated
  | invalidPayload
deriving DecidableEq

/-- Decode a run of base-58 characters into digits, failing on a character
outside the alphabet. -/
def decodeB58Digits : List Char → Except DecodeError (List (Fin 58))
  | [] => .ok []
  | c :: cs =>
    match charToDigit c with
    | some d => (decodeB58Digits cs).map (fun ds => d :: ds)
    | none => .error .invalidChar

/-- Base-58 encoding of a byte string: one `1` per leading zero byte, then the
minimal base-58 digits of the big-endian value. -/
def base58Encode (bs : List Byte) : List Char :=
  List.replicate (bs.takeWhile isZeroByte).length '1'
    ++ (natToB58 (bytesToNat bs)).map digitChar

/-- Base-58 decoding of a character string: leading `1`s become zero bytes, the
remaining digits are read as a big-endian value. -/
def base58Decode (s : List Char) : Except DecodeError (List Byte) :=
  match decodeB58Digits (s.dropWhile isOneChar) with
  | .error e => .error e
  | .ok ds =>
    .ok (List.replicate (s.takeWhile isOneChar).length 0 ++ natToBytes (digitsToNat ds))

/-- Modelled from the spec: the prime field order of the proof system's curve
(secp256k1), an external protocol-fixed constant. -/
def secpFieldOrder : Nat :=
  115792089237316195423570985008687907853269984665640564039457584007908834671663

/-- Modular exponentiation by repeated squaring. -/
def powMod (b e m : Nat) : Nat :=
  if he : e = 0 then 1 % m
  else
    let h := powMod b (e / 2) m
    if e % 2 = 0 then h * h % m else h * h % m * (b % m) % m
termination_by e
decreasing_by exact Nat.div_lt_self (Nat.pos_of_ne_zero he) (by decide)

/-- Modelled from the spec: Euler-criterion check that `x` is the abscissa of a
point on the curve `y ^ 2 = x ^ 3 + 7` over the prime field. -/
def hasCurveY (x : Nat) : Bool :=
  (x ^ 3 + 7) % secpFieldOrder == 0
    || powMod ((x ^ 3 + 7) % secpFieldOrder) ((secpFieldOrder - 1) / 2) secpFieldOrder == 1

/-- Modelled from the spec: validity of a compressed elliptic-curve point
encoding, the acceptance condition of `EcPoint` parsing (which is outside
src) — 33 bytes that are either the distinguished all-zero identity encoding
or a sign byte 2/3 followed by the big-endian abscissa of an on-curve point. -/
def validPointEncoding (bs : List Byte) : Bool :=
  bs.length == 33 &&
    (bs.all (fun b => b == 0) ||
      ((bs.headD 0 == 2 || bs.headD 0 == 3) &&
        (decide (bytesToNat bs.tail < secpFieldOrder) && hasCurveY (bytesToNat bs.tail))))

/-- Failures of the binary (sigma) serialization layer. -/
inductive SigmaParsingError where
  | truncated
  | invalidPoint
deriving DecidableEq

/-- An elliptic-curve point, carried as its valid compressed encoding; every
successfully parsed point satisfies the validity predicate by construction. -/
def EcPoint : Type := { bs : List Byte // validPointEncoding bs = true }

instance : DecidableEq EcPoint :=
  fun a b => decidable_of_iff (a.val = b.val) Subtype.ext_iff.symm

/-- Compressed wire form of a point: exactly its encoding bytes, no framing. -/
def EcPoint.sigma_serialize_bytes (p : EcPoint) : List Byte := p.val

/-- `EcPoint::sigma_parse_bytes`, modelled from the spec: parsing fails unless
the whole byte string is a valid compressed point encoding. -/
def EcPoint.sigma_parse_bytes (bs : List Byte) : Except SigmaParsingError EcPoint :=
  if h : validPointEncoding bs = true then .ok ⟨bs, h⟩ else .error .invalidPoint

/-- Discrete-log statement: wraps exactly one elliptic-curve point. -/
structure ProveDlog where
  h : EcPoint
deriving DecidableEq

/-- `ProveDlog::new`: total, non-failing constructor. -/
def ProveDlog.new (p : EcPoint) : ProveDlog := ⟨p⟩

/-- The `Address` union over the three recognized spending-script shapes. -/
inductive Address where
  | p2pk (pd : ProveDlog)
  | p2sh (hash : List Byte)
  | p2s (script : List Byte)
deriving DecidableEq

/-- Modelled from the spec: the core network enumeration with header offsets
Mainnet = 0 and Testnet = 16 (the ergo-lib enum itself is outside src). -/
inductive NetworkPfx where
  | mainnet
  | testnet
deriving DecidableEq, Fintype

/-- Numeric header offset of a network. -/
def NetworkPfx.value : NetworkPfx → Nat
  | .mainnet => 0
  | .testnet => 16

/-- Modelled from the spec: the core address-type enumeration with values
P2Pk = 1, Pay2Sh = 2, Pay2S = 3 (the ergo-lib enum itself is outside src). -/
inductive AddressTypePfx where
  | p2pk
  | pay2sh
  | pay2s
deriving DecidableEq, Fintype

/-- Numeric value of an address-type tag. -/
def AddressTypePfx.value : AddressTypePfx → Nat
  | .p2pk => 1
  | .pay2sh => 2
  | .pay2s => 3

/-- `Address::address_type_prefix`: pure, total, derived from the variant tag. -/
def Address.address_type_pfx : Address → AddressTypePfx
  | .p2pk _ => .p2pk
  | .p2sh _ => .pay2sh
  | .p2s _ => .pay2s

/-- Payload bytes of each variant in the string codec: compressed point
encoding, raw digest bytes, or full serialized script bytes. -/
def Address.payload : Address → List Byte
  | .p2pk pd => pd.h.val
  | .p2sh hash => hash
  | .p2s script => script

/-- Modelled from the spec: the 4-byte address checksum truncates an external,
protocol-fixed collision-resistant digest of `header || payload`; the exact
digest function is fixed by the network specification and lies outside src,
so it is modelled by a fixed deterministic byte-mixing function. -/
def modelDigestWord (bs : List Byte) : Nat :=
  bs.foldl (fun w b => (w * 131 + b.val + 17) % 4294967296) 5381

/-- First four bytes of the modelled digest of `bs`. -/
def checksum4 (bs : List Byte) : List Byte :=
  [⟨modelDigestWord bs % 256, Nat.mod_lt _ (by decide)⟩,
   ⟨modelDigestWord bs / 256 % 256, Nat.mod_lt _ (by decide)⟩,
   ⟨modelDigestWord bs / 65536 % 256, Nat.mod_lt _ (by decide)⟩,
   ⟨modelDigestWord bs / 16777216 % 256, Nat.mod_lt _ (by decide)⟩]

/-- Canonical header byte: address-type value plus network offset
(arithmetic sum). -/
def headerByte (n : NetworkPfx) (t : AddressTypePfx) : Byte :=
  ⟨t.value + n.value, by cases n <;> cases t <;> decide⟩

/-- `header || payload || checksum` bytes of an address under a network. -/
def encode_address_bytes (n : NetworkPfx) (a : Address) : List Byte :=
  (headerByte n a.address_type_pfx :: a.payload)
    ++ checksum4 (headerByte n a.address_type_pfx :: a.payload)

/-- `AddressEncoder::encode_address_as_string`, modelled from the spec:
base-58 over `header || payload || checksum`, deterministic for a given
(network, Address) pair. -/
def encode_address_as_string (n : NetworkPfx) (a : Address) : List Char :=
  base58Encode (encode_address_bytes n a)

/-- Split decoded bytes into header and payload after recomputing the 4-byte
checksum over `header || payload` and rejecting on mismatch. -/
def splitChecksummed (bs : List Byte) : Except DecodeError (Byte × List Byte) :=
  match bs with
  | [] => .error .truncated
  | hd :: rest =>
    if rest.length < 4 then .error .truncated
    else if checksum4 (hd :: rest.take (rest.length - 4)) == rest.drop (rest.length - 4)
    then .ok (hd, rest.take (rest.length - 4))
    else .error .checksumMismatch

/-- Rebuild the Address from the type component of the header byte and the
payload bytes; an unrecognized type component is a distinct error. -/
def addressFromHeadPayload (hd : Byte) (payload : List Byte) : Except DecodeError Address :=
  if hd.val % 16 = 1 then
    match EcPoint.sigma_parse_bytes payload with
    | .ok p => .ok (Address.p2pk (ProveDlog.new p))
    | .error _ => .error .invalidPayload
  else if hd.val % 16 = 2 then .ok (Address.p2sh payload)
  else if hd.val % 16 = 3 then .ok (Address.p2s payload)
  else .error .unknownTypeHeader

/-- Base-58 decoding followed by the checksum check, shared by the checked and
unchecked parsers. -/
def decode_verified (s : List Char) : Except DecodeError (Byte × List Byte) :=
  match base58Decode s with
  | .error e => .error e
  | .ok bs => splitChecksummed bs

/-- `AddressEncoder::unchecked_parse_address_from_str`, modelled from the spec:
identical decoding and checksum verification, accepting either network's
header. -/
def unchecked_parse_address_from_str (s : List Char) : Except DecodeError Address :=
  match decode_verified s with
  | .error e => .error e
  | .ok (hd, payload) => addressFromHeadPayload hd payload

/-- `AddressEncoder::parse_address_from_str`, modelled from the spec: base-58
decode, checksum verification, then rejection when the header's network
component does not match the expected network. -/
def parse_address_from_str (n : NetworkPfx) (s : List Char) : Except DecodeError Address :=
  match decode_verified s with
  | .error e => .error e
  | .ok (hd, payload) =>
    if hd.val - hd.val % 16 = n.value then addressFromHeadPayload hd payload
    else .error .networkMismatch

deriving instance DecidableEq for Except

/-- Binding-layer error (`ergo-lib-c-core`): any underlying failure is wrapped
as a miscellaneous error. -/
inductive CErr where
  | misc (e : SigmaParsingError)
deriving DecidableEq

/-- `address_from_public_key` from the C bindings: parse the bytes as an
elliptic-curve point and wrap it directly as Pay-to-public-key. -/
def address_from_public_key (bs : List Byte) : Except CErr Address :=
  match EcPoint.sigma_parse_bytes bs with
  | .ok point => .ok (Address.p2pk (ProveDlog.new point))
  | .error e => .error (CErr.misc e)

/-- Modelled from the spec: the spending-script collaborator, an opaque
versioned container pattern-matched structurally against the three known
shapes — a minimal script around a discrete-log statement, the standard
script-hash guard template, or any other script kept as its serialized
bytes. -/
inductive ErgoTree where
  | sigmaPropDlog (p : EcPoint)
  | scriptHashGuard (hash : List Byte)
  | otherScript (bytes : List Byte)
deriving DecidableEq

/-- `Address::recreate_from_ergo_tree`, modelled from the spec: a bare
discrete-log root yields Pay-to-public-key, the hash-guard template yields
Pay-to-script-hash, anything else yields Pay-to-script over the full bytes. -/
def recreate_from_ergo_tree : ErgoTree → Except DecodeError Address
  | .sigmaPropDlog p => .ok (Address.p2pk (ProveDlog.new p))
  | .scriptHashGuard hash => .ok (Address.p2sh hash)
  | .otherScript bytes => .ok (Address.p2s bytes)

/-- Modelled from the spec: parse-from-bytes of the opaque script collaborator;
the held bytes are retained verbatim. -/
def ErgoTree.from_bytes (bytes : List Byte) : Except DecodeError ErgoTree :=
  .ok (.otherScript bytes)

/-- `Address::script`, modelled from the spec: synthesize the minimal script
for Pay-to-public-key, the hash-guard template for Pay-to-script-hash, and
pass the held bytes through verbatim for Pay-to-script. -/
def Address.script : Address → Except DecodeError ErgoTree
  | .p2pk pd => .ok (.sigmaPropDlog pd.h)
  | .p2sh hash => .ok (.scriptHashGuard hash)
  | .p2s bytes => ErgoTree.from_bytes bytes

/-- Modelled from the spec: a 32-byte digest; serialization is the raw
fixed-length byte sequence, unframed (`Digest32` itself is outside src). -/
def Digest32 : Type := { bs : List Byte // bs.length = 32 }

instance : DecidableEq Digest32 :=
  fun a b => decidable_of_iff (a.val = b.val) Subtype.ext_iff.symm

/-- `Digest32::SIZE`. -/
def Digest32.SIZE : Nat := 32

/-- `Digest32::zero`: the all-zero digest. -/
def Digest32.zero : Digest32 := ⟨List.replicate 32 0, by simp⟩

/-- Serialization of a digest: its raw bytes, no framing. -/
def Digest32.sigma_serialize (d : Digest32) : List Byte := d.val

/-- Parsing of a digest: read exactly 32 bytes from the stream, failing on
truncated input; the rest of the stream is returned for the next reader. -/
def Digest32.sigma_parse (bs : List Byte) :
    Except SigmaParsingError (Digest32 × List Byte) :=
  if h : 32 ≤ bs.length then
    .ok (⟨bs.take 32, by rw [List.length_take]; omega⟩, bs.drop 32)
  else .error .truncated

/-- `BoxId`: newtype for box ids, wrapping a `Digest32`
(`ergotree-ir/src/chain/ergo_box/box_id.rs`). -/
structure BoxId where
  digest : Digest32
deriving DecidableEq

/-- `BoxId::SIZE`. -/
def BoxId.SIZE : Nat := Digest32.SIZE

/-- `BoxId::zero`: all zeros. -/
def BoxId.zero : BoxId := ⟨Digest32.zero⟩

/-- `SigmaSerializable for BoxId`: serialization delegates to the inner digest
and adds nothing. -/
def BoxId.sigma_serialize (b : BoxId) : List Byte :=
  b.digest.sigma_serialize

/-- `SigmaSerializable for BoxId`: parsing delegates to the inner digest. -/
def BoxId.sigma_parse (bs : List Byte) : Except SigmaParsingError (BoxId × List Byte) :=
  match Digest32.sigma_parse bs with
  | .ok (d, rest) => .ok (BoxId.mk d, rest)
  | .error e => .error e

/-- Two's-complement reinterpretation of an unsigned byte as a signed byte. -/
def u8ToI8 (b : Byte) : Int :=
  if b.val < 128 then (b.val : Int) else (b.val : Int) - 256

/-- `From<BoxId> for Vec<i8>`: reinterpretation of the digest bytes as signed
bytes (`as_vec_i8`). -/
def BoxId.to_vec_i8 (b : BoxId) : List Int :=
  b.digest.val.map u8ToI8

/-- Modelled from the spec: `ValId`, the u32 identifier of a val definition
(defined in the excluded type-checker collaborator). -/
abbrev ValId := Nat

/-- Modelled from the spec: the script type-checker's type language is an
external collaborator of this core; only equality of types matters here. -/
inductive SType where
  | sBoolean
  | sInt
  | sColl (elem : SType)
deriving DecidableEq

/-- `ValDefTypeStore` (`ergo-lib/src/serialization/val_def_type_store.rs`): a
map from val ids to types; the `HashMap` is represented as an association
list. -/
structure ValDefTypeStore where
  entries : List (ValId × SType)
deriving DecidableEq

/-- `ValDefTypeStore::new`. -/
def ValDefTypeStore.new : ValDefTypeStore := ⟨[]⟩

/-- `ValDefTypeStore::insert`: updates the map, and — exactly as in the source,
which executes `dbg!(&self.0)` after the update — prints the whole updated
map to stderr. The emitted stderr events are made explicit as the second
component of the result, each event carrying the map contents it prints. -/
def ValDefTypeStore.insert (s : ValDefTypeStore) (id : ValId) (tpe : SType) :
    ValDefTypeStore × List (List (ValId × SType)) :=
  (ValDefTypeStore.mk ((id, tpe) :: s.entries.filter (fun e => !(e.1 == id))),
    [(id, tpe) :: s.entries.filter (fun e => !(e.1 == id))])

/-- `ValDefTypeStore::get`. -/
def ValDefTypeStore.get (s : ValDefTypeStore) (id : ValId) : Option SType :=
  (s.entries.find? (fun e => e.1 == id)).map (fun e => e.2)

/-- `NetworkPrefix` of the C bindings (`ergo-lib-c-core/src/address.rs`), with
`repr(u8)` discriminants Mainnet = 0 and Testnet = 16. -/
inductive CNetworkPfx where
  | mainnet
  | testnet
deriving DecidableEq, Fintype

/-- The `repr(u8)` discriminant of the binding network enum. -/
def CNetworkPfx.reprValue : CNetworkPfx → Nat
  | .mainnet => 0
  | .testnet => 16

/-- `From<NetworkPrefix> for addr::NetworkPrefix`. -/
def CNetworkPfx.toCore : CNetworkPfx → NetworkPfx
  | .mainnet => .mainnet
  | .testnet => .testnet

/-- `From<addr::NetworkPrefix> for NetworkPrefix`. -/
def NetworkPfx.toBinding : NetworkPfx → CNetworkPfx
  | .mainnet => .mainnet
  | .testnet => .testnet

/-- `AddressTypePrefix` of the C bindings, with `repr(u8)` discriminants
P2Pk = 1, Pay2Sh = 2, Pay2S = 3. -/
inductive CAddressTypePfx where
  | p2pk
  | pay2sh
  | pay2s
deriving DecidableEq, Fintype

/-- The `repr(u8)` discriminant of the binding address-type enum. -/
def CAddressTypePfx.reprValue : CAddressTypePfx → Nat
  | .p2pk => 1
  | .pay2sh => 2
  | .pay2s => 3

/-- `From<AddressTypePrefix> for addr::AddressTypePrefix`. -/
def CAddressTypePfx.toCore : CAddressTypePfx → AddressTypePfx
  | .p2pk => .p2pk
  | .pay2sh => .pay2sh
  | .pay2s => .pay2s

/-- `From<addr::AddressTypePrefix> for AddressTypePrefix`. -/
def AddressTypePfx.toBinding : AddressTypePfx → CAddressTypePfx
  | .p2pk => .p2pk
  | .pay2sh => .pay2sh
  | .pay2s => .pay2s

end ErgoCore

namespace ErgoCore

theorem natToBytes_eq (n : Nat) :
    natToBytes n = if h : n = 0 then []
      else natToBytes (n / 256) ++ [⟨n % 256, Nat.mod_lt _ (by decide)⟩] := by
  rw [natToBytes]

theorem natToB58_eq (n : Nat) :
    natToB58 n = if h : n = 0 then []
      else natToB58 (n / 58) ++ [⟨n % 58, Nat.mod_lt _ (by decide)⟩] := by
  rw [natToB58]

theorem bytesToNat_append_singleton (l : List Byte) (b : Byte) :
    bytesToNat (l ++ [b]) = bytesToNat l * 256 + b.val := by
  simp [bytesToNat, List.foldl_append]

theorem digitsToNat_append_singleton (l : List (Fin 58)) (d : Fin 58) :
    digitsToNat (l ++ [d]) = digitsToNat l * 58 + d.val := by
  simp [digitsToNat, List.foldl_append]

theorem bytesToNat_natToBytes (n : Nat) : bytesToNat (natToBytes n) = n := by
  induction n using Nat.strong_induction_on with
  | _ n ih =>
    by_cases hn : n = 0
    · subst hn; rw [natToBytes_eq]; simp [bytesToNat]
    · rw [natToBytes_eq, dif_neg hn, bytesToNat_append_singleton,
        ih (n / 256) (Nat.div_lt_self (Nat.pos_of_ne_zero hn) (by decide))]
      show n / 256 * 256 + n % 256 = n
      omega

theorem digitsToNat_natToB58 (n : Nat) : digitsToNat (natToB58 n) = n := by
  induction n using Nat.strong_induction_on with
  | _ n ih =>
    by_cases hn : n = 0
    · subst hn; rw [natToB58_eq]; simp [digitsToNat]
    · rw [natToB58_eq, dif_neg hn, digitsToNat_append_singleton,
        ih (n / 58) (Nat.div_lt_self (Nat.pos_of_ne_zero hn) (by decide))]
      show n / 58 * 58 + n % 58 = n
      omega

theorem bytesToNat_foldl_ge (bs : List Byte) (a : Nat) :
    a ≤ bs.foldl (fun x b => x * 256 + b.val) a := by
  induction bs generalizing a with
  | nil => simp
  | cons b t ih =>
    simp only [List.foldl_cons]
    exact le_trans (by omega) (ih (a * 256 + b.val))

theorem bytesToNat_cons_pos (b : Byte) (t : List Byte) (hb : b.val ≠ 0) :
    bytesToNat (b :: t) ≠ 0 := by
  have h := bytesToNat_foldl_ge t (0 * 256 + b.val)
  simp only [bytesToNat, List.foldl_cons]
  omega

theorem natToBytes_mul_add (v : Nat) (b : Byte) (h : v ≠ 0 ∨ b.val ≠ 0) :
    natToBytes (v * 256 + b.val) = natToBytes v ++ [b] := by
  have hne : v * 256 + b.val ≠ 0 := by rcases h with h | h <;> omega
  have hb := b.isLt
  have hdiv : (v * 256 + b.val) / 256 = v := by omega
  have hmod : (v * 256 + b.val) % 256 = b.val := by omega
  rw [natToBytes_eq, dif_neg hne, hdiv]
  congr 1
  simp [Fin.ext_iff, hmod]

theorem natToBytes_bytesToNat (l : List Byte) :
    (∀ d t, l = d :: t → d.val ≠ 0) → natToBytes (bytesToNat l) = l := by
  induction l using List.reverseRecOn with
  | nil => intro _; rw [show bytesToNat [] = 0 from rfl, natToBytes_eq]; simp
  | append_singleton ys b ih =>
    intro hl
    cases ys with
    | nil =>
      have hb : b.val ≠ 0 := hl b [] rfl
      have h1 : bytesToNat ([] ++ [b]) = 0 * 256 + b.val := by
        simp [bytesToNat]
      rw [h1, natToBytes_mul_add 0 b (Or.inr hb)]
      rw [show natToBytes 0 = [] by simp [natToBytes_eq]]
    | cons d t =>
      have hd : d.val ≠ 0 := hl d (t ++ [b]) (by simp)
      have ih' : natToBytes (bytesToNat (d :: t)) = d :: t := by
        apply ih
        intro d' t' h'
        injection h' with h1 h2
        rw [← h1]; exact hd
      rw [show (d :: t) ++ [b] = (d :: t) ++ [b] from rfl,
        bytesToNat_append_singleton,
        natToBytes_mul_add _ b (Or.inl (bytesToNat_cons_pos d t hd)), ih']


theorem charToDigit_digitChar : ∀ d : Fin 58, charToDigit (digitChar d) = some d := by
  decide

theorem isOneChar_digitChar (d : Fin 58) (hd : d.val ≠ 0) :
    isOneChar (digitChar d) = false := by
  revert hd
  revert d
  decide

theorem decodeB58Digits_map_digitChar (ds : List (Fin 58)) :
    decodeB58Digits (ds.map digitChar) = .ok ds := by
  induction ds with
  | nil => rfl
  | cons d t ih => simp [decodeB58Digits, charToDigit_digitChar, ih, Except.map]

theorem bytesToNat_replicate_zero_append (z : Nat) (l : List Byte) :
    bytesToNat (List.replicate z 0 ++ l) = bytesToNat l := by
  induction z with
  | zero => simp
  | succ k ih => simpa [bytesToNat, List.replicate_succ] using ih

theorem takeWhile_replicate_append {α : Type} (p : α → Bool) (a : α) (ha : p a = true)
    (z : Nat) (l : List α) :
    (List.replicate z a ++ l).takeWhile p = List.replicate z a ++ l.takeWhile p := by
  induction z with
  | zero => simp
  | succ k ih => simp [List.replicate_succ, List.takeWhile_cons, ha, ih]

theorem dropWhile_replicate_append {α : Type} (p : α → Bool) (a : α) (ha : p a = true)
    (z : Nat) (l : List α) :
    (List.replicate z a ++ l).dropWhile p = l.dropWhile p := by
  induction z with
  | zero => simp
  | succ k ih => simp [List.replicate_succ, List.dropWhile_cons, ha, ih]

theorem takeWhile_replicate {α : Type} (p : α → Bool) (a : α) (ha : p a = true) (z : Nat) :
    (List.replicate z a).takeWhile p = List.replicate z a := by
  simpa using takeWhile_replicate_append p a ha z []

theorem dropWhile_replicate {α : Type} (p : α → Bool) (a : α) (ha : p a = true) (z : Nat) :
    (List.replicate z a).dropWhile p = [] := by
  simpa using dropWhile_replicate_append p a ha z []

theorem takeWhile_cons_false {α : Type} (p : α → Bool) (x : α) (l : List α)
    (hx : p x = false) : (x :: l).takeWhile p = [] := by
  simp [List.takeWhile_cons, hx]

theorem dropWhile_cons_false {α : Type} (p : α → Bool) (x : α) (l : List α)
    (hx : p x = false) : (x :: l).dropWhile p = x :: l := by
  simp [List.dropWhile_cons, hx]

theorem dropWhile_head_false {α : Type} (p : α → Bool) (l : List α) (d : α) (t : List α)
    (h : l.dropWhile p = d :: t) : p d = false := by
  induction l with
  | nil => simp [List.dropWhile] at h
  | cons x xs ih =>
    rw [List.dropWhile_cons] at h
    by_cases hx : p x = true
    · rw [if_pos hx] at h; exact ih h
    · rw [if_neg hx] at h
      injection h with h1 _
      rw [← h1]
      simpa using hx

theorem takeWhile_isZeroByte (bs : List Byte) :
    bs.takeWhile isZeroByte = List.replicate (bs.takeWhile isZeroByte).length 0 := by
  apply List.eq_replicate_iff.mpr
  refine ⟨rfl, ?_⟩
  intro b hb
  have h := List.mem_takeWhile_imp hb
  simpa [isZeroByte] using h

theorem natToB58_head (n : Nat) :
    n ≠ 0 → ∃ d t, natToB58 n = d :: t ∧ d.val ≠ 0 := by
  induction n using Nat.strong_induction_on with
  | _ n ih =>
    intro hn
    rw [natToB58_eq, dif_neg hn]
    by_cases h58 : n / 58 = 0
    · rw [h58, show natToB58 0 = [] by simp [natToB58_eq]]
      refine ⟨⟨n % 58, Nat.mod_lt _ (by decide)⟩, [], by simp, ?_⟩
      show n % 58 ≠ 0
      omega
    · obtain ⟨d, t, ht, hd⟩ :=
        ih (n / 58) (Nat.div_lt_self (Nat.pos_of_ne_zero hn) (by decide)) h58
      exact ⟨d, t ++ [⟨n % 58, Nat.mod_lt _ (by decide)⟩], by rw [ht]; simp, hd⟩

theorem base58Decode_base58Encode (bs : List Byte) :
    base58Decode (base58Encode bs) = Except.ok bs := by
  have htk : bs.takeWhile isZeroByte = List.replicate (bs.takeWhile isZeroByte).length 0 :=
    takeWhile_isZeroByte bs
  have hsplit : bs.takeWhile isZeroByte ++ bs.dropWhile isZeroByte = bs :=
    List.takeWhile_append_dropWhile isZeroByte bs
  have hN : bytesToNat bs = bytesToNat (bs.dropWhile isZeroByte) := by
    conv_lhs => rw [← hsplit, htk]
    exact bytesToNat_replicate_zero_append _ _
  rcases hrest : bs.dropWhile isZeroByte with _ | ⟨d, t⟩
  · -- all bytes are zero
    have hbs : bs = List.replicate (bs.takeWhile isZeroByte).length 0 := by
      conv_lhs => rw [← hsplit, htk, hrest]
      simp
    have hN0 : bytesToNat bs = 0 := by rw [hN, hrest]; rfl
    rw [base58Encode, hN0, show natToB58 0 = [] by simp [natToB58_eq]]
    simp only [List.map_nil, List.append_nil]
    rw [base58Decode]
    rw [dropWhile_replicate isOneChar '1' rfl _,
      show decodeB58Digits [] = Except.ok [] from rfl]
    simp only [takeWhile_replicate isOneChar '1' rfl, List.length_replicate]
    rw [show natToBytes (digitsToNat []) = [] by simp [digitsToNat, natToBytes_eq]]
    rw [List.append_nil, ← hbs]
  · -- a nonzero byte exists
    have hd0 : d.val ≠ 0 := by
      have hfalse := dropWhile_head_false isZeroByte bs d t hrest
      intro hv
      rw [isZeroByte, show d = 0 from Fin.ext hv] at hfalse
      simp at hfalse
    have hN0 : bytesToNat bs ≠ 0 := by
      rw [hN, hrest]; exact bytesToNat_cons_pos d t hd0
    obtain ⟨e, es, he, hene⟩ := natToB58_head (bytesToNat bs) hN0
    rw [base58Encode, he]
    rw [base58Decode]
    rw [List.map_cons,
      dropWhile_replicate_append isOneChar '1' rfl _ _,
      takeWhile_replicate_append isOneChar '1' rfl _ _]
    rw [dropWhile_cons_false isOneChar _ _ (isOneChar_digitChar e hene),
      takeWhile_cons_false isOneChar _ _ (isOneChar_digitChar e hene)]
    rw [show (digitChar e :: List.map digitChar es) = (e :: es).map digitChar from rfl,
      decodeB58Digits_map_digitChar]
    simp only [List.append_nil, List.length_replicate]
    show Except.ok (List.replicate (bs.takeWhile isZeroByte).length 0
        ++ natToBytes (digitsToNat (e :: es))) = Except.ok bs
    rw [← he, digitsToNat_natToB58, hN, hrest,
      natToBytes_bytesToNat (d :: t) (by
        intro d' t' h'
        injection h' with h1 _
        rw [← h1]; exact hd0)]
    rw [← htk, ← hrest, hsplit]

theorem checksum4_length (bs : List Byte) : (checksum4 bs).length = 4 := rfl

theorem splitChecksummed_encode (hd : Byte) (payload : List Byte) :
    splitChecksummed ((hd :: payload) ++ checksum4 (hd :: payload)) = .ok (hd, payload) := by
  rw [List.cons_append, splitChecksummed]
  have hlen : (payload ++ checksum4 (hd :: payload)).length - 4 = payload.length := by
    simp [checksum4_length]
  rw [if_neg (by rw [List.length_append, checksum4_length]; omega), hlen,
    List.take_left' rfl, List.drop_left' rfl, if_pos (by simp)]

theorem ec_parse_of_serialize (p : EcPoint) :
    EcPoint.sigma_parse_bytes p.val = .ok p := by
  rw [EcPoint.sigma_parse_bytes, dif_pos p.property]
  rfl

theorem addressFromHeadPayload_encode (n : NetworkPfx) (a : Address) :
    addressFromHeadPayload (headerByte n a.address_type_pfx) a.payload = .ok a := by
  cases a with
  | p2pk pd =>
    simp only [Address.address_type_pfx, Address.payload]
    have h1 : (headerByte n AddressTypePfx.p2pk).val % 16 = 1 := by cases n <;> decide
    rw [addressFromHeadPayload, if_pos h1, ec_parse_of_serialize pd.h]
    rfl
  | p2sh hash =>
    simp only [Address.address_type_pfx, Address.payload]
    have h2 : (headerByte n AddressTypePfx.pay2sh).val % 16 = 2 := by cases n <;> decide
    rw [addressFromHeadPayload, if_neg (by omega), if_pos h2]
  | p2s script =>
    simp only [Address.address_type_pfx, Address.payload]
    have h3 : (headerByte n AddressTypePfx.pay2s).val % 16 = 3 := by cases n <;> decide
    rw [addressFromHeadPayload, if_neg (by omega), if_neg (by omega), if_pos h3]

theorem decode_verified_encode (n : NetworkPfx) (a : Address) :
    decode_verified (encode_address_as_string n a)
      = .ok (headerByte n a.address_type_pfx, a.payload) := by
  rw [decode_verified, encode_address_as_string, base58Decode_base58Encode]
  show splitChecksummed (encode_address_bytes n a) = _
  exact splitChecksummed_encode _ _

/-- C1: for every valid Address `a` and every network prefix `n`, parsing with
the checked decoder bound to `n` the string produced by encoding `a` under
`n` returns `Ok` with an Address equal to `a`. -/
theorem address_encode_decode_roundtrip (a : Address) (n : NetworkPfx) :
    parse_address_from_str n (encode_address_as_string n a) = Except.ok a := by
  rw [parse_address_from_str, decode_verified_encode]
  show (if (headerByte n a.address_type_pfx).val
        - (headerByte n a.address_type_pfx).val % 16 = n.value
      then addressFromHeadPayload (headerByte n a.address_type_pfx) a.payload
      else .error .networkMismatch) = Except.ok a
  rw [if_pos (by cases n <;> cases a <;> simp only [Address.address_type_pfx] <;> decide)]
  exact addressFromHeadPayload_encode n a

/-- C2: a Testnet-encoded address string is rejected by the checked Mainnet
parser and vice versa, while the unchecked parser accepts both strings and
returns the Address. -/
theorem network_isolation (a : Address) :
    parse_address_from_str .mainnet (encode_address_as_string .testnet a)
      = .error .networkMismatch
    ∧ parse_address_from_str .testnet (encode_address_as_string .mainnet a)
      = .error .networkMismatch
    ∧ unchecked_parse_address_from_str (encode_address_as_string .testnet a) = .ok a
    ∧ unchecked_parse_address_from_str (encode_address_as_string .mainnet a) = .ok a := by
  refine ⟨?_, ?_, ?_, ?_⟩
  · rw [parse_address_from_str, decode_verified_encode]
    show (if (headerByte .testnet a.address_type_pfx).val
          - (headerByte .testnet a.address_type_pfx).val % 16 = NetworkPfx.value .mainnet
        then addressFromHeadPayload (headerByte .testnet a.address_type_pfx) a.payload
        else .error .networkMismatch) = .error .networkMismatch
    rw [if_neg (by cases a <;> simp only [Address.address_type_pfx] <;> decide)]
  · rw [parse_address_from_str, decode_verified_encode]
    show (if (headerByte .mainnet a.address_type_pfx).val
          - (headerByte .mainnet a.address_type_pfx).val % 16 = NetworkPfx.value .testnet
        then addressFromHeadPayload (headerByte .mainnet a.address_type_pfx) a.payload
        else .error .networkMismatch) = .error .networkMismatch
    rw [if_neg (by cases a <;> simp only [Address.address_type_pfx] <;> decide)]
  · rw [unchecked_parse_address_from_str, decode_verified_encode]
    exact addressFromHeadPayload_encode .testnet a
  · rw [unchecked_parse_address_from_str, decode_verified_encode]
    exact addressFromHeadPayload_encode .mainnet a

/-- C3 (refutation evidence): contrary to the purity claim,
`ValDefTypeStore::insert` performs I/O — the `dbg!(&self.0)` call in the
source prints the updated map to stderr, so the modelled stderr trace of an
insert is nonempty. -/
theorem val_def_type_store_insert_emits_output :
    (ValDefTypeStore.new.insert 1 SType.sInt).2 ≠ [] := by decide

/-- C4: a Pay-to-public-key Address built from valid public-key bytes,
converted to its spending script and recreated from that script, yields an
Address equal to the original. -/
theorem p2pk_script_address_roundtrip (bs : List Byte) (a : Address)
    (h : address_from_public_key bs = .ok a) :
    (Address.script a).bind recreate_from_ergo_tree = .ok a := by
  cases hp : EcPoint.sigma_parse_bytes bs with
  | error e => rw [address_from_public_key, hp] at h; simp at h
  | ok p =>
    rw [address_from_public_key, hp] at h
    simp only [Except.ok.injEq] at h
    subst h
    rfl

/-- Witness for `p2pk_script_address_roundtrip` at the identity-point
encoding (33 zero bytes). -/
theorem p2pk_script_address_roundtrip_witness :
    (Address.script (Address.p2pk (ProveDlog.new
        ⟨List.replicate 33 (0 : Byte), by decide⟩))).bind recreate_from_ergo_tree
      = .ok (Address.p2pk (ProveDlog.new ⟨List.replicate 33 (0 : Byte), by decide⟩)) :=
  p2pk_script_address_roundtrip (List.replicate 33 (0 : Byte))
    (Address.p2pk (ProveDlog.new ⟨List.replicate 33 (0 : Byte), by decide⟩))
    (by decide)

/-- C5: for every BoxId, parsing the bytes produced by serialization returns
the same BoxId with an exhausted stream. -/
theorem boxid_serialize_parse_roundtrip (b : BoxId) :
    BoxId.sigma_parse (BoxId.sigma_serialize b) = .ok (b, ([] : List Byte)) := by
  obtain ⟨⟨v, hv⟩⟩ := b
  have h1 : v.take 32 = v := List.take_of_length_le (by omega)
  have h2 : v.drop 32 = [] := List.drop_eq_nil_of_le (by omega)
  rw [BoxId.sigma_parse, show BoxId.sigma_serialize ⟨⟨v, hv⟩⟩ = v from rfl,
    Digest32.sigma_parse, dif_pos (by omega : 32 ≤ v.length)]
  simp only [Except.ok.injEq, Prod.mk.injEq, BoxId.mk.injEq]
  exact ⟨Subtype.ext h1, h2⟩

/-- C6: serializing the all-zero BoxId yields exactly 32 zero bytes, and
parsing those 32 zero bytes returns the all-zero BoxId. -/
theorem boxid_zero_serialization :
    BoxId.sigma_serialize BoxId.zero = List.replicate 32 0
    ∧ BoxId.sigma_parse (List.replicate 32 0) = .ok (BoxId.zero, ([] : List Byte)) := by
  constructor
  · rfl
  · rfl

/-- C7: the serialized byte sequence of a BoxId is identical to that of its
inner digest — serialization delegates entirely and adds no framing. -/
theorem boxid_wire_format_eq_digest (b : BoxId) :
    BoxId.sigma_serialize b = Digest32.sigma_serialize b.digest := rfl

theorem u8ToI8_inj (a b : Byte) (h : u8ToI8 a = u8ToI8 b) : a = b := by
  have ha := a.isLt
  have hb := b.isLt
  apply Fin.ext
  rw [u8ToI8, u8ToI8] at h
  split at h <;> split at h <;> omega

/-- C8: the signed-byte vector of a BoxId has exactly 32 elements, its `i`-th
element is the two's-complement reinterpretation of the `i`-th digest byte,
and the conversion is injective. -/
theorem boxid_to_vec_i8_spec (b1 b2 : BoxId) (i : Nat) (hi : i < 32)
    (heq : BoxId.to_vec_i8 b1 = BoxId.to_vec_i8 b2) :
    (BoxId.to_vec_i8 b1).length = 32
    ∧ (BoxId.to_vec_i8 b1).getD i 0 = u8ToI8 (b1.digest.val.getD i (0 : Byte))
    ∧ b1 = b2 := by
  refine ⟨?_, ?_, ?_⟩
  · rw [BoxId.to_vec_i8, List.length_map]; exact b1.digest.property
  · have hl : i < b1.digest.val.length := by rw [b1.digest.property]; exact hi
    rw [BoxId.to_vec_i8, List.getD_eq_getElem?_getD, List.getD_eq_getElem?_getD,
      List.getElem?_map, List.getElem?_eq_getElem hl]
    rfl
  · have hveq : b1.digest.val = b2.digest.val := by
      rw [BoxId.to_vec_i8, BoxId.to_vec_i8] at heq
      exact List.map_injective_iff.mpr (fun a b h => u8ToI8_inj a b h) heq
    have hd : b1.digest = b2.digest := Subtype.ext hveq
    cases b1 with
    | mk d1 =>
      cases b2 with
      | mk d2 => rw [show d1 = d2 from hd]

/-- Witness for `boxid_to_vec_i8_spec` at the all-zero BoxId and index 0. -/
theorem boxid_to_vec_i8_spec_witness :
    (BoxId.to_vec_i8 BoxId.zero).length = 32
    ∧ (BoxId.to_vec_i8 BoxId.zero).getD 0 0
        = u8ToI8 (BoxId.zero.digest.val.getD 0 (0 : Byte))
    ∧ BoxId.zero = BoxId.zero :=
  boxid_to_vec_i8_spec BoxId.zero BoxId.zero 0 (by decide) rfl

/-- C9: `address_from_public_key` returns a Pay-to-public-key Address wrapping
a discrete-log statement over the parsed point exactly when the bytes are a
valid compressed elliptic-curve point encoding, and a wrapped parse error
otherwise; no other Address variant is ever produced. -/
theorem from_public_key_bytes_spec (bs : List Byte) :
    if h : validPointEncoding bs = true
    then address_from_public_key bs = .ok (Address.p2pk (ProveDlog.new ⟨bs, h⟩))
    else address_from_public_key bs = .error (CErr.misc SigmaParsingError.invalidPoint) := by
  by_cases h : validPointEncoding bs = true
  · rw [dif_pos h, address_from_public_key, EcPoint.sigma_parse_bytes, dif_pos h]
  · rw [dif_neg h, address_from_public_key, EcPoint.sigma_parse_bytes, dif_neg h]

/-- C10: the binding enumerations carry exactly the wire values Mainnet = 0,
Testnet = 16, P2Pk = 1, Pay2Sh = 2, Pay2S = 3, have no other inhabitants, and
the conversions between the binding-layer and core-layer enumerations
preserve these values in both directions. -/
theorem enum_wire_values :
    (CNetworkPfx.reprValue .mainnet = 0 ∧ CNetworkPfx.reprValue .testnet = 16)
    ∧ (CAddressTypePfx.reprValue .p2pk = 1 ∧ CAddressTypePfx.reprValue .pay2sh = 2
        ∧ CAddressTypePfx.reprValue .pay2s = 3)
    ∧ (∀ v : CNetworkPfx, v = .mainnet ∨ v = .testnet)
    ∧ (∀ v : CAddressTypePfx, v = .p2pk ∨ v = .pay2sh ∨ v = .pay2s)
    ∧ (∀ v : CNetworkPfx, (CNetworkPfx.toCore v).value = v.reprValue
        ∧ (CNetworkPfx.toCore v).toBinding = v)
    ∧ (∀ v : NetworkPfx, (NetworkPfx.toBinding v).reprValue = v.value
        ∧ (NetworkPfx.toBinding v).toCore = v)
    ∧ (∀ v : CAddressTypePfx, (CAddressTypePfx.toCore v).value = v.reprValue
        ∧ (CAddressTypePfx.toCore v).toBinding = v)
    ∧ (∀ v : AddressTypePfx, (AddressTypePfx.toBinding v).reprValue = v.value
        ∧ (AddressTypePfx.toBinding v).toCore = v) := by
  decide
